import Mathlib

/-!
Shallow embedding of the `KleinKramers2d::Evolve` integrator
(src/PhysicalKinetics/SmoluchowskiLimit/KleinKramers2d.cpp).

The C++ code works on flat `double` buffers indexed by `i1*W1+i2`; we model a
buffer as a total function `ℤ → ℤ → K` over an abstract linear ordered field
`K` (instantiated with `ℚ` for concrete witnesses and with `ℝ` where the code
uses `exp`/`log`).  Double arithmetic is idealised as exact field arithmetic;
`isfinite` holds for every element of an ordered field, and the NaN produced
by `log` on a negative argument is modelled by the positivity guard of the
corresponding candidate (see `extrapStep`).  Loops that write a range of cells
become functions that return the updated buffer, guarded by the same range
tests the loops use.
-/

namespace KK2d

/-- Scalar and grid parameters fixed in `KleinKramers2d::init`:
time step `kk`, grid steps `H0 = H[0]`, `H1 = H[1]`, domain corners
`Box0 = Box[0]`, `Box2 = Box[2]`, physics constants `m`, `kb`, `temp`,
`gamma`, the extrapolation damping `ExReduce`, grid sizes
`Nx = BoxShape[0]`, `Np = BoxShape[1]` and the halo width `EDGE`. -/
structure Params (K : Type*) where
  kk : K
  H0 : K
  H1 : K
  Box0 : K
  Box2 : K
  m : K
  kb : K
  temp : K
  gamma : K
  ExReduce : K
  Nx : ℤ
  Np : ℤ
  EDGE : ℤ

variable {K : Type*} [LinearOrderedField K]

/-- Dense 2-d buffer (`F`, `FF`, `PF`, `KK1..KK4`, `Feq_loc`). -/
abbrev Grid2 (K : Type*) := ℤ → ℤ → K

/-- Active-cell mask (`TAMask`). -/
abbrev Mask := ℤ → ℤ → Bool

/-- Physical coordinate `xx1 = Box[0] + i1 * H[0]`. -/
def xcoord (P : Params K) (i : ℤ) : K := P.Box0 + (i : K) * P.H0

/-- Physical momentum `xx2 = Box[2] + i2 * H[1]`. -/
def pcoord (P : Params K) (j : ℤ) : K := P.Box2 + (j : K) * P.H1

/-- Constant `k2h0m = kk / (2.0 * H[0] * m)`. -/
def k2h0m (P : Params K) : K := P.kk / (2 * P.H0 * P.m)

/-- Constant `k2h1 = kk / (2.0 * H[1])`. -/
def k2h1 (P : Params K) : K := P.kk / (2 * P.H1)

/-- Constant `kgamma = kk * gamma`. -/
def kgamma (P : Params K) : K := P.kk * P.gamma

/-! ### RK4 stepper, full-grid variant (CASE 3, lines 2100-2226) -/

/-- Stage field `KK1`: `-k2h0m*xx2*(f1p-f1m) + k2h1*Vx(xx1,xx2)*(f2p-f2m)
+ kgamma*(feq-f0)` with `f* = F` neighbours. -/
def stageK1 (P : Params K) (Vx : K → K → K) (F Feq : Grid2 K) : Grid2 K := fun i j =>
  -k2h0m P * pcoord P j * (F (i+1) j - F (i-1) j)
  + k2h1 P * Vx (xcoord P i) (pcoord P j) * (F i (j+1) - F i (j-1))
  + kgamma P * (Feq i j - F i j)

/-- Stage field `KK2`: neighbours and centre blended with `0.5 * KK1`. -/
def stageK2 (P : Params K) (Vx : K → K → K) (F Feq : Grid2 K) : Grid2 K := fun i j =>
  -k2h0m P * pcoord P j *
      (F (i+1) j + (1/2) * stageK1 P Vx F Feq (i+1) j
        - F (i-1) j - (1/2) * stageK1 P Vx F Feq (i-1) j)
  + k2h1 P * Vx (xcoord P i) (pcoord P j) *
      (F i (j+1) + (1/2) * stageK1 P Vx F Feq i (j+1)
        - F i (j-1) - (1/2) * stageK1 P Vx F Feq i (j-1))
  + kgamma P * (Feq i j - F i j - (1/2) * stageK1 P Vx F Feq i j)

/-- Stage field `KK3`: like `KK2` but blended with `0.5 * KK2`. -/
def stageK3 (P : Params K) (Vx : K → K → K) (F Feq : Grid2 K) : Grid2 K := fun i j =>
  -k2h0m P * pcoord P j *
      (F (i+1) j + (1/2) * stageK2 P Vx F Feq (i+1) j
        - F (i-1) j - (1/2) * stageK2 P Vx F Feq (i-1) j)
  + k2h1 P * Vx (xcoord P i) (pcoord P j) *
      (F i (j+1) + (1/2) * stageK2 P Vx F Feq i (j+1)
        - F i (j-1) - (1/2) * stageK2 P Vx F Feq i (j-1))
  + kgamma P * (Feq i j - F i j - (1/2) * stageK2 P Vx F Feq i j)

/-- Stage field `KK4`: neighbours and centre blended with the full `KK3`. -/
def stageK4 (P : Params K) (Vx : K → K → K) (F Feq : Grid2 K) : Grid2 K := fun i j =>
  -k2h0m P * pcoord P j *
      (F (i+1) j + stageK3 P Vx F Feq (i+1) j
        - F (i-1) j - stageK3 P Vx F Feq (i-1) j)
  + k2h1 P * Vx (xcoord P i) (pcoord P j) *
      (F i (j+1) + stageK3 P Vx F Feq i (j+1)
        - F i (j-1) - stageK3 P Vx F Feq i (j-1))
  + kgamma P * (Feq i j - F i j - stageK3 P Vx F Feq i j)

/-- Accumulated tentative field: `FF = F + KK1/6`, `FF += KK2/3`,
`FF += KK3/3`, `FF += KK4/6`. -/
def rk4Acc (P : Params K) (Vx : K → K → K) (F Feq : Grid2 K) : Grid2 K := fun i j =>
  (((F i j + stageK1 P Vx F Feq i j / 6) + stageK2 P Vx F Feq i j / 3)
      + stageK3 P Vx F Feq i j / 3) + stageK4 P Vx F Feq i j / 6

/-- Loop bounds of the full-grid RK4: `EDGE <= i1 < BoxShape[0]-EDGE`
and `EDGE <= i2 < BoxShape[1]-EDGE`. -/
def interiorCellB (P : Params K) (i j : ℤ) : Bool :=
  decide (P.EDGE ≤ i) && decide (i < P.Nx - P.EDGE)
    && decide (P.EDGE ≤ j) && decide (j < P.Np - P.EDGE)

/-- Full-grid tentative field after the four RK4 loops: interior cells get the
accumulated value, cells outside the loop range keep the old `FF`. -/
def rk4FullGrid (P : Params K) (Vx : K → K → K) (F Feq FFold : Grid2 K) : Grid2 K := fun i j =>
  if interiorCellB P i j then rk4Acc P Vx F Feq i j else FFold i j

/-- Specification-side stage operator
`S(g) = -(Δt/(2 h_x m))·p_j·(g(i+1,j)-g(i-1,j)) + (Δt/(2 h_p))·V'(x_i)·(g(i,j+1)-g(i,j-1))
+ Δt·γ·(f_eq(i,j)-g(i,j))`, written from the spec sentence. -/
def stageOp (P : Params K) (Vx : K → K → K) (Feq g : Grid2 K) : Grid2 K := fun i j =>
  -(P.kk / (2 * P.H0 * P.m)) * pcoord P j * (g (i+1) j - g (i-1) j)
  + (P.kk / (2 * P.H1)) * Vx (xcoord P i) (pcoord P j) * (g i (j+1) - g i (j-1))
  + (P.kk * P.gamma) * (Feq i j - g i j)

/-- Field blend `f + α·k` used as the stage argument of `stageOp`. -/
def blend (F Kf : Grid2 K) (a : K) : Grid2 K := fun i j => F i j + a * Kf i j

/-! ### Normalization (lines 2245-2303) -/

/-- Normalization factor `norm = H[0]*H[1] * Σ FF` over the update region
(`R` is the set of summed cells: the live cells of the bounding box in
truncated mode, the edge-free interior in full-grid mode). -/
def znorm (P : Params K) (R : Finset (ℤ × ℤ)) (FFb : Grid2 K) : K :=
  P.H0 * P.H1 * ∑ c ∈ R, FFb c.1 c.2

/-- Buffer after the normalization loop: on the region every cell is
overwritten with `val = (1/norm) * FF`, elsewhere the buffer `G` is kept.
The same `val` is stored into `FF`, `F` and `PF`. -/
def renorm (P : Params K) (R : Finset (ℤ × ℤ)) (FFb G : Grid2 K) : Grid2 K := fun i j =>
  if (i, j) ∈ R then (1 / znorm P R FFb) * FFb i j else G i j

/-- Live cells of the bounding box `[x1l,x1h] × [x2l,x2h]` (truncated mode
update region). -/
def liveRegion (M : Mask) (x1l x1h x2l x2h : ℤ) : Finset (ℤ × ℤ) :=
  (Finset.Icc x1l x1h ×ˢ Finset.Icc x2l x2h).filter fun c => M c.1 c.2

/-- Edge-free interior (full-grid mode update region). -/
def interiorRegion (P : Params K) : Finset (ℤ × ℤ) :=
  Finset.Icc P.EDGE (P.Nx - P.EDGE - 1) ×ˢ Finset.Icc P.EDGE (P.Np - P.EDGE - 1)

/-! ### Moment engine (lines 716-748 and the analogous per-step blocks) -/

/-- Row density accumulator: `density += F[i1*W1+i2] * H[1]` over live cells
of the row. -/
def rowDensity (P : Params K) (M : Mask) (F : Grid2 K) (jlo jhi i : ℤ) : K :=
  ∑ j ∈ Finset.Icc jlo jhi, (if M i j then F i j * P.H1 else 0)

/-- Row momentum accumulator:
`velocity_dft += (Box[2] + i2*H[1]) * F[i1*W1+i2] * H[1]` over live cells. -/
def rowMomRaw (P : Params K) (M : Mask) (F : Grid2 K) (jlo jhi i : ℤ) : K :=
  ∑ j ∈ Finset.Icc jlo jhi, (if M i j then pcoord P j * F i j * P.H1 else 0)

/-- Row temperature accumulator:
`temp_loc += pow(Box[2] + i2*H[1] - m*velocity_dft, 2) * F[i1*W1+i2] * H[1]`. -/
def rowTempRaw (P : Params K) (M : Mask) (F : Grid2 K) (jlo jhi i : ℤ) (u : K) : K :=
  ∑ j ∈ Finset.Icc jlo jhi, (if M i j then (pcoord P j - P.m * u) ^ 2 * F i j * P.H1 else 0)

/-- Full Fokker-Planck row moments (the final `else` branch of the moment
blocks): `(Density[i1], Velocity[i1], Temperature[i1])`.  When the density is
nonpositive all three stay at their zero initialisation. -/
def rowMoments (P : Params K) (M : Mask) (F : Grid2 K) (jlo jhi i : ℤ) : K × K × K :=
  if rowDensity P M F jlo jhi i ≤ 0 then (0, 0, 0)
  else
    (rowDensity P M F jlo jhi i,
     rowMomRaw P M F jlo jhi i / (P.m * rowDensity P M F jlo jhi i),
     rowTempRaw P M F jlo jhi i
         (rowMomRaw P M F jlo jhi i / (P.m * rowDensity P M F jlo jhi i))
       / (P.m * P.kb * rowDensity P M F jlo jhi i))

/-! ### End-of-step truncation (lines 2374-2416) and expansion -/

/-- Bounding-box membership test used by the truncation loops. -/
def inBoxB (x1l x1h x2l x2h i j : ℤ) : Bool :=
  decide (x1l ≤ i) && decide (i ≤ x1h) && decide (x2l ≤ j) && decide (j ≤ x2h)

/-- Mask after the pass at lines 2404-2416: inside the box,
`PF == 0.0` makes the cell non-live and any other `PF` makes it live;
outside the box the mask is untouched. -/
def pruneMask (x1l x1h x2l x2h : ℤ) (PF : Grid2 K) (M : Mask) : Mask := fun i j =>
  if inBoxB x1l x1h x2l x2h i j then (if PF i j = 0 then false else true) else M i j

/-- Distribution after the same pass: `F` is zeroed exactly on box cells with
`PF == 0.0`. -/
def pruneF (x1l x1h x2l x2h : ℤ) (PF F : Grid2 K) : Grid2 K := fun i j =>
  if inBoxB x1l x1h x2l x2h i j then (if PF i j = 0 then 0 else F i j) else F i j

/-- TA expansion (lines 2487-2520): an arbitrary further set `S` of cells is
turned live; `F` is not modified by the expansion. -/
def expandMask (M : Mask) (S : ℤ → ℤ → Bool) : Mask := fun i j => M i j || S i j

/-! ### Boundary / frontier construction (lines 959-984, 1019-1031, 1727-1757) -/

/-- Interior test used for frontier cells:
`g1 > EDGE && g2 > EDGE && g1 < BoxShape[0]-EDGE-1 && g2 < BoxShape[1]-EDGE-1`. -/
abbrev interiorP (P : Params K) (c : ℤ × ℤ) : Prop :=
  P.EDGE < c.1 ∧ P.EDGE < c.2 ∧ c.1 < P.Nx - P.EDGE - 1 ∧ c.2 < P.Np - P.EDGE - 1

/-- Squared gradient with boundary substitution, as computed in the TBL
filters and the prune pass: a missing (non-live) neighbour is replaced by the
centre value and the divisor is the live-neighbour count. -/
def gradSq (P : Params K) (M : Mask) (G : Grid2 K) (g1 g2 : ℤ) : K :=
  (if ((if M (g1+1) g2 then 1 else 0) + (if M (g1-1) g2 then 1 else 0) : ℕ) = 0 then 0
   else (|(if M (g1+1) g2 then G (g1+1) g2 else G g1 g2)
            - (if M (g1-1) g2 then G (g1-1) g2 else G g1 g2)|
          / ((((if M (g1+1) g2 then 1 else 0) + (if M (g1-1) g2 then 1 else 0) : ℕ) : K) * P.H0)) ^ 2)
  + (if ((if M g1 (g2+1) then 1 else 0) + (if M g1 (g2-1) then 1 else 0) : ℕ) = 0 then 0
     else (|(if M g1 (g2+1) then G g1 (g2+1) else G g1 g2)
              - (if M g1 (g2-1) then G g1 (g2-1) else G g1 g2)|
            / ((((if M g1 (g2+1) then 1 else 0) + (if M g1 (g2-1) then 1 else 0) : ℕ) : K) * P.H1)) ^ 2)

/-- Pre-RK4 frontier build (lines 959-984): keep the TB cells whose `PF`
value or `F` gradient reaches the leak thresholds and which pass the interior
tests `b3 && b4`. -/
def tblBuild (P : Params K) (M : Mask) (F PF : Grid2 K) (TolL TolLdSq : K)
    (TB : List (ℤ × ℤ)) : List (ℤ × ℤ) :=
  TB.filter fun c =>
    decide ((TolL ≤ PF c.1 c.2 ∨ TolLdSq ≤ gradSq P M F c.1 c.2) ∧ interiorP P c)

/-- Extrapolation target build (lines 1019-1031): zero-valued neighbours of
TBL cells, each push guarded by its own one-sided interior test. -/
def exffBuild (P : Params K) (F : Grid2 K) (TBL : List (ℤ × ℤ)) : List (ℤ × ℤ) :=
  TBL.flatMap fun c =>
    (if P.EDGE < c.1 - 1 ∧ F (c.1-1) c.2 = 0 then [(c.1 - 1, c.2)] else [])
    ++ (if c.1 + 1 < P.Nx - P.EDGE - 1 ∧ F (c.1+1) c.2 = 0 then [(c.1 + 1, c.2)] else [])
    ++ (if P.EDGE < c.2 - 1 ∧ F c.1 (c.2-1) = 0 then [(c.1, c.2 - 1)] else [])
    ++ (if c.2 + 1 < P.Np - P.EDGE - 1 ∧ F c.1 (c.2+1) = 0 then [(c.1, c.2 + 1)] else [])

/-- Frontier rebuild from `FF` (lines 1727-1757).  Note the source computes
`b3 = g2 > EDGE && g2 > EDGE` (the first conjunct repeats `g2`), which is
reproduced literally here. -/
def tblRebuild (P : Params K) (M : Mask) (FFb : Grid2 K) (TolH TolHdSq : K)
    (chk : ℤ × ℤ → Bool) (ExFFL : List (ℤ × ℤ)) : List (ℤ × ℤ) :=
  ExFFL.filter fun c =>
    chk c && decide (((TolH ≤ FFb c.1 c.2 ∨ TolHdSq ≤ gradSq P M FFb c.1 c.2)
      ∧ (P.EDGE < c.2 ∧ P.EDGE < c.2)
      ∧ (c.1 < P.Nx - P.EDGE - 1 ∧ c.2 < P.Np - P.EDGE - 1)))

/-! ### Geometric extrapolation of one target cell (lines 1070-1177) -/

/-- Initial value `BIG_NUMBER = 2147483647` of `val_min` and `val_min_abs`. -/
def bigNum (K : Type*) [LinearOrderedField K] : K := 2147483647

/-- Accumulator of the per-target direction scan: running candidate `sum` and
`count`, the tracked minimum (`val_min_abs`, `val_min`, `H[min_dir]`) and the
`isEmpty` flag. -/
structure ExtrapAcc (K : Type*) where
  sum : K
  count : ℕ
  vminAbs : K
  vmin : K
  hmin : K
  isEmpty : Bool

/-- Start state: `sum = 0`, `count = 0`, `val_min_abs = val_min = BIG_NUMBER`,
`min_dir = -1` (no step recorded yet, modelled as `hmin = 0`), `isEmpty`. -/
def extrapInit : ExtrapAcc K :=
  { sum := 0, count := 0, vminAbs := bigNum K, vmin := bigNum K, hmin := 0, isEmpty := true }

/-- Scan of a single direction `(f1, f2, h)`: mirrors one of the four guarded
blocks.  The minimum is updated when `|f1| < val_min_abs && f2 != 0`; the
candidate `exp(2*log(f1) - log(f2))` is accumulated when it is finite, which
over an ordered field (no overflow) happens exactly when `f1` and `f2` are
positive — `log` of a negative argument yields NaN in the source and the
candidate is discarded by the `isnan` test. -/
def minUpd (a : ExtrapAcc K) (d : K × K × K) : ExtrapAcc K :=
  if |d.1| < a.vminAbs ∧ d.2.1 ≠ 0 then
    { sum := a.sum, count := a.count, vminAbs := |d.1|, vmin := d.1, hmin := d.2.2,
      isEmpty := a.isEmpty }
  else a

/-- Continuation of the direction scan: after the minimum update, the
candidate is accumulated when it is finite. -/
def extrapStep (cexp clog : K → K) (a : ExtrapAcc K) (d : K × K × K) : ExtrapAcc K :=
  if d.1 = 0 then a
  else
    if 0 < d.1 ∧ 0 < d.2.1 then
      { sum := (minUpd a d).sum + cexp (2 * clog d.1 - clog d.2.1),
        count := (minUpd a d).count + 1,
        vminAbs := (minUpd a d).vminAbs, vmin := (minUpd a d).vmin,
        hmin := (minUpd a d).hmin, isEmpty := false }
    else minUpd a d

/-- Direction data of target `(g1,g2)` in source order `-x, +x, -p, +p`:
nearest value `f1`, second-nearest value `f2`, and the grid step `H[min_dir]`
of the direction. -/
def dirData (P : Params K) (F : Grid2 K) (g1 g2 : ℤ) : List (K × K × K) :=
  [(F (g1-1) g2, F (g1-2) g2, P.H0),
   (F (g1+1) g2, F (g1+2) g2, P.H0),
   (F g1 (g2-1), F g1 (g2-2), P.H1),
   (F g1 (g2+1), F g1 (g2+2), P.H1)]

/-- Accumulator after scanning the four directions of one target. -/
def extrapAcc (cexp clog : K → K) (P : Params K) (F : Grid2 K) (g1 g2 : ℤ) : ExtrapAcc K :=
  (dirData P F g1 g2).foldl (extrapStep cexp clog) extrapInit

/-- Value committed to a target: `none` when `isEmpty` (the `Check[i] = false`
path, cell left unassigned); otherwise `sum/count`, replaced by
`val_min * exp(-ExReduce * H[min_dir])` when `|sum/count| > val_min_abs`. -/
def extrapValue (cexp clog : K → K) (P : Params K) (F : Grid2 K) (g1 g2 : ℤ) : Option K :=
  if (extrapAcc cexp clog P F g1 g2).isEmpty then none
  else if (extrapAcc cexp clog P F g1 g2).vminAbs
      < |(extrapAcc cexp clog P F g1 g2).sum / ((extrapAcc cexp clog P F g1 g2).count : K)| then
    some ((extrapAcc cexp clog P F g1 g2).vmin
      * cexp (-P.ExReduce * (extrapAcc cexp clog P F g1 g2).hmin))
  else some ((extrapAcc cexp clog P F g1 g2).sum / ((extrapAcc cexp clog P F g1 g2).count : K))

/-- Specification-side list of directions whose two nearest cells are both
non-zero (these form a candidate and take part in the minimum tracking). -/
def formedDirs (L : List (K × K × K)) : List (K × K × K) :=
  L.filter fun d => decide (d.1 ≠ 0 ∧ d.2.1 ≠ 0)

/-- Specification-side list of directions contributing a finite candidate. -/
def validDirs (L : List (K × K × K)) : List (K × K × K) :=
  L.filter fun d => decide (0 < d.1 ∧ 0 < d.2.1)

/-- Specification-side sum of the finite candidates `exp(2 ln f1 - ln f2)`. -/
def candTotal (cexp clog : K → K) (L : List (K × K × K)) : K :=
  ((validDirs L).map fun d => cexp (2 * clog d.1 - clog d.2.1)).sum

/-- Specification-side average of the finite candidates. -/
def candAverage (cexp clog : K → K) (L : List (K × K × K)) : K :=
  candTotal cexp clog L / ((validDirs L).length : K)

/-! ### Local Maxwellian and its sanitisation (lines 1259-1306, 1560-1574,
1813-1860, 2048-2082) -/

/-- Collision mode selected by `isLinearizedCollision` / `isIsothermal`. -/
inductive CollMode
  | lin
  | iso
  | fullFP

/-- Linearized-mode Maxwellian:
`density * sqrt(1/(2*PI*m*kb*temp)) * exp(-pow(Box[2]+i2*H[1], 2)/(2*m*kb*temp))`. -/
def feqLinRaw (P : Params K) (rsqrt rexp : K → K) (piv : K) (d : K) (j : ℤ) : K :=
  d * rsqrt (1 / (2 * piv * P.m * P.kb * P.temp))
    * rexp (-(pcoord P j) ^ 2 / (2 * P.m * P.kb * P.temp))

/-- Isothermal-mode Maxwellian:
`density * sqrt(1/(2*PI*m*kb*temp)) * exp(-pow(Box[2]+i2*H[1]-m*u, 2)/(2*m*kb*temp))`. -/
def feqIsoRaw (P : Params K) (rsqrt rexp : K → K) (piv : K) (d u : K) (j : ℤ) : K :=
  d * rsqrt (1 / (2 * piv * P.m * P.kb * P.temp))
    * rexp (-(pcoord P j - P.m * u) ^ 2 / (2 * P.m * P.kb * P.temp))

/-- Full-mode Maxwellian with the local temperature `temp_loc`. -/
def feqFullRaw (P : Params K) (rsqrt rexp : K → K) (piv : K) (d u Tl : K) (j : ℤ) : K :=
  d * rsqrt (1 / (2 * piv * P.m * P.kb * Tl))
    * rexp (-(pcoord P j - P.m * u) ^ 2 / (2 * P.m * P.kb * Tl))

/-- Specification-side sanitiser: values above `1/(H[0]*H[1])` are replaced by
`0`, every other value is stored unchanged.  Over an ordered field the
`!isfinite(feq)` disjunct of the source is identically false. -/
def sanitizeFeq (P : Params K) (v : K) : K := if 1 / (P.H0 * P.H1) < v then 0 else v

/-- Per-row `Feq_loc` update of the truncated moment blocks (lines 1242-1310
and 1796-1864; with the all-true mask and full ranges it is also the
full-grid block at lines 2035-2087).  Cells outside the masked row range keep
the old value; a nonpositive row density zeroes the row. -/
def case2Feq (P : Params K) (rsqrt rexp : K → K) (piv : K) (M : Mask) (F : Grid2 K)
    (jlo jhi : ℤ) (mode : CollMode) (FeqOld : Grid2 K) : Grid2 K := fun i j =>
  if M i j ∧ jlo ≤ j ∧ j ≤ jhi then
    if rowDensity P M F jlo jhi i ≤ 0 then 0
    else
      match mode with
      | CollMode.lin =>
          if 1 / (P.H0 * P.H1)
              < feqLinRaw P rsqrt rexp piv (rowDensity P M F jlo jhi i) j then 0
          else feqLinRaw P rsqrt rexp piv (rowDensity P M F jlo jhi i) j
      | CollMode.iso =>
          if 1 / (P.H0 * P.H1)
              < feqIsoRaw P rsqrt rexp piv (rowDensity P M F jlo jhi i)
                  (rowMomRaw P M F jlo jhi i / (P.m * rowDensity P M F jlo jhi i)) j then 0
          else feqIsoRaw P rsqrt rexp piv (rowDensity P M F jlo jhi i)
                 (rowMomRaw P M F jlo jhi i / (P.m * rowDensity P M F jlo jhi i)) j
      | CollMode.fullFP =>
          if 1 / (P.H0 * P.H1)
              < feqFullRaw P rsqrt rexp piv (rowDensity P M F jlo jhi i)
                  (rowMomRaw P M F jlo jhi i / (P.m * rowDensity P M F jlo jhi i))
                  (rowTempRaw P M F jlo jhi i
                      (rowMomRaw P M F jlo jhi i / (P.m * rowDensity P M F jlo jhi i))
                    / (P.m * P.kb * rowDensity P M F jlo jhi i)) j then 0
          else feqFullRaw P rsqrt rexp piv (rowDensity P M F jlo jhi i)
                 (rowMomRaw P M F jlo jhi i / (P.m * rowDensity P M F jlo jhi i))
                 (rowTempRaw P M F jlo jhi i
                     (rowMomRaw P M F jlo jhi i / (P.m * rowDensity P M F jlo jhi i))
                   / (P.m * P.kb * rowDensity P M F jlo jhi i)) j
  else FeqOld i j

/-- `Feq_loc` update over the `ExBD` cells (lines 1560-1574): moments are read
from the stored row arrays `Density`, `Velocity`, `Temperature`. -/
def exbdFeq (P : Params K) (rsqrt rexp : K → K) (piv : K) (Dens Vel Temp : ℤ → K)
    (L : List (ℤ × ℤ)) (FeqOld : Grid2 K) : Grid2 K := fun i j =>
  if (i, j) ∈ L then
    if 0 < Dens i then
      if 1 / (P.H0 * P.H1) < feqFullRaw P rsqrt rexp piv (Dens i) (Vel i) (Temp i) j then 0
      else feqFullRaw P rsqrt rexp piv (Dens i) (Vel i) (Temp i) j
    else 0
  else FeqOld i j

/-! ### Extrapolation loop control (lines 1003-1787) -/

/-- Data of the loop body that is irrelevant to control (fields `F`, `FF`,
`KK1..KK4`, `Feq_loc`, the moment arrays, `TBL_P`, the mask and box): kept
abstract in an environment type `E`. -/
structure ExState (E : Type*) where
  tbl : List (ℤ × ℤ)
  excount : ℕ
  first : Bool
  env : E

/-- Abstract data operations of one pass of the loop: `exffOf` builds the
(post-`Check` clearing) target list `ExFF`, `extrapOf` commits the target
values, `rk4fullOf` is the whole-bounding-box RK4 of the first pass,
`rk4ringOf` the `ExBD`-restricted RK4 of later passes, `rebuildOf` the
frontier rebuild (including the `TBL_P` subtraction) and `postOf` the
remaining bookkeeping. -/
structure ExProg (E : Type*) where
  exffOf : E → List (ℤ × ℤ) → List (ℤ × ℤ)
  extrapOf : E → List (ℤ × ℤ) → E
  rk4fullOf : E → E
  rk4ringOf : E → List (ℤ × ℤ) → E
  rebuildOf : E → List (ℤ × ℤ) → List (ℤ × ℤ)
  postOf : E → List (ℤ × ℤ) → E

/-- One pass of `while (TBL.size() != 0 && !isFullGrid && Excount < ExLimit)`:
the guard-failed state is returned unchanged; otherwise the body follows the
source branch structure, with `Excount += 1; if (Excount == ExLimit)
TBL.clear();` executed exactly when `ExFF` is nonempty. -/
def exBody {E : Type*} (Pr : ExProg E) (ExLimit : ℕ) (s : ExState E) : ExState E :=
  if s.tbl = [] ∨ ExLimit ≤ s.excount then s
  else
    if s.first then
      if Pr.exffOf s.env s.tbl = [] then
        { tbl := s.tbl, excount := s.excount, first := false,
          env := Pr.rk4fullOf (Pr.extrapOf s.env (Pr.exffOf s.env s.tbl)) }
      else
        { tbl := if s.excount + 1 = ExLimit then []
                 else Pr.rebuildOf (Pr.rk4fullOf (Pr.extrapOf s.env (Pr.exffOf s.env s.tbl)))
                        (Pr.exffOf s.env s.tbl),
          excount := s.excount + 1, first := false,
          env := Pr.postOf (Pr.rk4fullOf (Pr.extrapOf s.env (Pr.exffOf s.env s.tbl)))
                   (Pr.exffOf s.env s.tbl) }
    else
      if Pr.exffOf s.env s.tbl = [] then
        { tbl := [], excount := s.excount, first := false, env := s.env }
      else
        { tbl := if s.excount + 1 = ExLimit then []
                 else Pr.rebuildOf (Pr.rk4ringOf (Pr.extrapOf s.env (Pr.exffOf s.env s.tbl))
                        (Pr.exffOf s.env s.tbl)) (Pr.exffOf s.env s.tbl),
          excount := s.excount + 1, first := false,
          env := Pr.postOf (Pr.rk4ringOf (Pr.extrapOf s.env (Pr.exffOf s.env s.tbl))
                   (Pr.exffOf s.env s.tbl)) (Pr.exffOf s.env s.tbl) }

/-- Termination measure of the loop. -/
def exMeasure {E : Type*} (ExLimit : ℕ) (s : ExState E) : ℕ :=
  2 * (ExLimit - s.excount) + (if s.first then 1 else 0) + (if s.tbl = [] then 0 else 1)

/-- Exit condition of the loop (negated guard). -/
abbrev exExit {E : Type*} (ExLimit : ℕ) (s : ExState E) : Prop :=
  s.tbl = [] ∨ ExLimit ≤ s.excount

/-! ### Concrete instances used by the witnesses -/

/-- Small concrete parameter set over `ℚ` used by witnesses. -/
def pW : Params ℚ :=
  { kk := 1, H0 := 1, H1 := 1, Box0 := 0, Box2 := 0, m := 1, kb := 1, temp := 1,
    gamma := 1, ExReduce := 1, Nx := 9, Np := 9, EDGE := 2 }

/-- Small concrete parameter set over `ℝ` used by witnesses of the real-valued
claims. -/
def pR : Params ℝ :=
  { kk := 1, H0 := 1, H1 := 1, Box0 := 0, Box2 := 0, m := 1, kb := 1, temp := 1,
    gamma := 1, ExReduce := 1, Nx := 9, Np := 9, EDGE := 2 }

/-- Trivial abstract loop program over a unit environment. -/
def prW : ExProg Unit :=
  { exffOf := fun _ _ => [], extrapOf := fun _ _ => (), rk4fullOf := fun _ => (),
    rk4ringOf := fun _ _ => (), rebuildOf := fun _ _ => [], postOf := fun _ _ => () }

/-- Concrete loop start state. -/
def sW : ExState Unit := { tbl := [(3, 3)], excount := 0, first := true, env := () }

end KK2d

namespace KK2d

variable {K : Type*} [LinearOrderedField K]

/-! ## Claim theorems -/

/-- C1: in full-grid mode each interior cell `(i,j)` of
`[EDGE, Nx-EDGE) × [EDGE, Np-EDGE)` gets the four stage fields
`K1 = S(F)`, `K2 = S(F + K1/2)`, `K3 = S(F + K2/2)`, `K4 = S(F + K3)` of the
central-difference Klein-Kramers stage operator `S` (with `f_eq` held fixed),
and the accumulated tentative field equals `F + (K1 + 2K2 + 2K3 + K4)/6`. -/
theorem c1_fullgrid_rk4 (P : Params K) (Vx : K → K → K) (F Feq FFold : Grid2 K) (i j : ℤ)
    (hi : P.EDGE ≤ i ∧ i < P.Nx - P.EDGE) (hj : P.EDGE ≤ j ∧ j < P.Np - P.EDGE) :
    stageK1 P Vx F Feq i j = stageOp P Vx Feq F i j
    ∧ stageK2 P Vx F Feq i j = stageOp P Vx Feq (blend F (stageK1 P Vx F Feq) (1/2)) i j
    ∧ stageK3 P Vx F Feq i j = stageOp P Vx Feq (blend F (stageK2 P Vx F Feq) (1/2)) i j
    ∧ stageK4 P Vx F Feq i j = stageOp P Vx Feq (blend F (stageK3 P Vx F Feq) 1) i j
    ∧ rk4FullGrid P Vx F Feq FFold i j
        = F i j + (stageK1 P Vx F Feq i j + 2 * stageK2 P Vx F Feq i j
            + 2 * stageK3 P Vx F Feq i j + stageK4 P Vx F Feq i j) / 6 := by
  refine ⟨?_, ?_, ?_, ?_, ?_⟩
  · simp only [stageK1, stageOp, k2h0m, k2h1, kgamma]
  · simp only [stageK2, stageOp, blend, k2h0m, k2h1, kgamma]; ring
  · simp only [stageK3, stageOp, blend, k2h0m, k2h1, kgamma]; ring
  · simp only [stageK4, stageOp, blend, k2h0m, k2h1, kgamma]; ring
  · have hin : interiorCellB P i j = true := by
      simp [interiorCellB, hi.1, hi.2, hj.1, hj.2]
    rw [rk4FullGrid, hin]
    simp only [if_true, rk4Acc]
    ring

/-- Witness for C1 at a concrete interior cell of the concrete grid `pW`. -/
theorem c1_fullgrid_rk4_witness :
    rk4FullGrid pW (fun _ _ => 0) (fun _ _ => 0) (fun _ _ => 0) (fun _ _ => 0) 2 2
      = (fun _ _ => (0:ℚ)) 2 2
        + (stageK1 pW (fun _ _ => 0) (fun _ _ => 0) (fun _ _ => 0) 2 2
            + 2 * stageK2 pW (fun _ _ => 0) (fun _ _ => 0) (fun _ _ => 0) 2 2
            + 2 * stageK3 pW (fun _ _ => 0) (fun _ _ => 0) (fun _ _ => 0) 2 2
            + stageK4 pW (fun _ _ => 0) (fun _ _ => 0) (fun _ _ => 0) 2 2) / 6 :=
  (c1_fullgrid_rk4 pW (fun _ _ => 0) (fun _ _ => 0) (fun _ _ => 0) (fun _ _ => 0) 2 2
    (by decide) (by decide)).2.2.2.2

/-- C2: when the pre-normalization factor `Z` is nonzero, the discrete
integral `H0·H1·Σ` of the renormalized field over the update region equals 1,
and `F`, `FF`, `PF` carry the same values on the region. -/
theorem c2_normalization (P : Params K) (R : Finset (ℤ × ℤ)) (FFb F PF : Grid2 K)
    (hZ : znorm P R FFb ≠ 0) :
    P.H0 * P.H1 * ∑ c ∈ R, renorm P R FFb FFb c.1 c.2 = 1
    ∧ ∀ c ∈ R, renorm P R FFb F c.1 c.2 = renorm P R FFb FFb c.1 c.2
        ∧ renorm P R FFb PF c.1 c.2 = renorm P R FFb FFb c.1 c.2 := by
  constructor
  · have hs : ∀ c ∈ R, renorm P R FFb FFb c.1 c.2 = (1 / znorm P R FFb) * FFb c.1 c.2 := by
      intro c hc; simp [renorm, hc]
    rw [Finset.sum_congr rfl hs, ← Finset.mul_sum]
    have h2 : P.H0 * P.H1 * (1 / znorm P R FFb * ∑ c ∈ R, FFb c.1 c.2)
        = znorm P R FFb / znorm P R FFb := by rw [znorm]; ring
    rw [h2, div_self hZ]
  · intro c hc
    constructor <;> simp [renorm, hc]

/-- Witness for C2 on a one-cell region with `Z = 2`. -/
theorem c2_normalization_witness :
    pW.H0 * pW.H1 * ∑ c ∈ ({((0:ℤ), (0:ℤ))} : Finset (ℤ × ℤ)),
        renorm pW {((0:ℤ), (0:ℤ))} (fun _ _ => 2) (fun _ _ => 2) c.1 c.2 = 1 :=
  (c2_normalization pW {((0:ℤ), (0:ℤ))} (fun _ _ => 2) (fun _ _ => 0) (fun _ _ => 0)
    (by norm_num [znorm, pW])).1

/-- C3: the full Fokker-Planck moment rows give
`ρ_i = h_p·Σ_live F`, and for `ρ_i > 0`
`u_i = (h_p/(m ρ_i))·Σ_live p_j F` and
`T_loc,i = (h_p/(m k_B ρ_i))·Σ_live (p_j - m u_i)² F`; for `ρ_i ≤ 0` the
triple is `(0,0,0)`. -/
theorem c3_row_moments_fullfp (P : Params K) (M : Mask) (F : Grid2 K) (jlo jhi i : ℤ) :
    (rowDensity P M F jlo jhi i ≤ 0 → rowMoments P M F jlo jhi i = (0, 0, 0))
    ∧ (0 < rowDensity P M F jlo jhi i →
        (rowMoments P M F jlo jhi i).1
            = P.H1 * ∑ j ∈ Finset.Icc jlo jhi, (if M i j then F i j else 0)
        ∧ (rowMoments P M F jlo jhi i).2.1
            = P.H1 / (P.m * (rowMoments P M F jlo jhi i).1)
                * ∑ j ∈ Finset.Icc jlo jhi, (if M i j then pcoord P j * F i j else 0)
        ∧ (rowMoments P M F jlo jhi i).2.2
            = P.H1 / (P.m * P.kb * (rowMoments P M F jlo jhi i).1)
                * ∑ j ∈ Finset.Icc jlo jhi,
                    (if M i j then (pcoord P j - P.m * (rowMoments P M F jlo jhi i).2.1) ^ 2
                        * F i j else 0)) := by
  have key : ∀ G : ℤ → K,
      ∑ j ∈ Finset.Icc jlo jhi, (if M i j then G j * P.H1 else 0)
        = P.H1 * ∑ j ∈ Finset.Icc jlo jhi, (if M i j then G j else 0) := by
    intro G
    rw [Finset.mul_sum]
    refine Finset.sum_congr rfl fun j _ => ?_
    split <;> ring
  constructor
  · intro h; simp [rowMoments, h]
  · intro h
    have hne : ¬ rowDensity P M F jlo jhi i ≤ 0 := not_le.mpr h
    have h1 : (rowMoments P M F jlo jhi i).1 = rowDensity P M F jlo jhi i := by
      simp [rowMoments, hne]
    have h21 : (rowMoments P M F jlo jhi i).2.1
        = rowMomRaw P M F jlo jhi i / (P.m * rowDensity P M F jlo jhi i) := by
      simp [rowMoments, hne]
    have h22 : (rowMoments P M F jlo jhi i).2.2
        = rowTempRaw P M F jlo jhi i
            (rowMomRaw P M F jlo jhi i / (P.m * rowDensity P M F jlo jhi i))
          / (P.m * P.kb * rowDensity P M F jlo jhi i) := by
      simp [rowMoments, hne]
    refine ⟨?_, ?_, ?_⟩
    · rw [h1, rowDensity, key (fun j => F i j)]
    · rw [h21, h1, rowMomRaw, key (fun j => pcoord P j * F i j)]
      ring
    · rw [h22, h1, h21, rowTempRaw,
        key (fun j => (pcoord P j
          - P.m * (rowMomRaw P M F jlo jhi i / (P.m * rowDensity P M F jlo jhi i))) ^ 2 * F i j)]
      ring

/-- Witness for C3 on a one-cell live row with `ρ = 1 > 0`. -/
theorem c3_row_moments_fullfp_witness :
    (0:ℚ) < rowDensity pW (fun _ _ => true) (fun _ _ => 1) 0 0 0
    ∧ (rowMoments pW (fun _ _ => true) (fun _ _ => 1) 0 0 0).1
        = pW.H1 * ∑ j ∈ Finset.Icc (0:ℤ) 0, (if (fun _ _ => true) 0 j then (fun _ _ => (1:ℚ)) 0 j else 0) :=
  ⟨by norm_num [rowDensity, pW],
   ((c3_row_moments_fullfp pW (fun _ _ => true) (fun _ _ => 1) 0 0 0).2
      (by norm_num [rowDensity, pW])).1⟩

end KK2d

namespace KK2d

variable {K : Type*} [LinearOrderedField K]

/-- C4: after the end-of-step mask update (and the purely mask-enlarging TA
expansion `S`), every non-live cell holds `F = 0`, provided the invariant held
for cells outside the scanned bounding box before the pass. -/
theorem c4_nonlive_cells_zero (x1l x1h x2l x2h : ℤ) (PF F : Grid2 K) (M : Mask)
    (S : ℤ → ℤ → Bool) (i j : ℤ)
    (hout : ∀ a b : ℤ, inBoxB x1l x1h x2l x2h a b = false → M a b = false → F a b = 0)
    (hmask : expandMask (pruneMask x1l x1h x2l x2h PF M) S i j = false) :
    pruneF x1l x1h x2l x2h PF F i j = 0 := by
  have hp : pruneMask x1l x1h x2l x2h PF M i j = false := by
    have := hmask
    simp only [expandMask, Bool.or_eq_false_iff] at this
    exact this.1
  by_cases hb : inBoxB x1l x1h x2l x2h i j = true
  · by_cases hz : PF i j = 0
    · simp [pruneF, hb, hz]
    · exfalso
      rw [pruneMask, hb] at hp
      simp [hz] at hp
  · have hb' : inBoxB x1l x1h x2l x2h i j = false := by
      simpa using hb
    have hm : M i j = false := by
      rw [pruneMask, hb'] at hp
      simpa using hp
    have := hout i j hb' hm
    simp [pruneF, hb', this]

/-- Witness for C4 at a concrete state where all hypotheses hold. -/
theorem c4_nonlive_cells_zero_witness :
    pruneF 0 1 0 1 (fun _ _ => (0:ℚ)) (fun _ _ => 0) 0 0 = 0 :=
  c4_nonlive_cells_zero 0 1 0 1 (fun _ _ => (0:ℚ)) (fun _ _ => 0) (fun _ _ => false)
    (fun _ _ => false) 0 0 (fun _ _ _ _ => rfl) (by decide)

/-- C10: inside the bounding box the recomputed mask is `true` exactly on the
cells with nonzero `PF`; a cell with `PF = 0` is turned non-live and its `F`
is zeroed, and a cell with `PF ≠ 0` is made live regardless of its previous
mask value. -/
theorem c10_mask_recompute_iff (x1l x1h x2l x2h : ℤ) (PF F : Grid2 K) (M : Mask) (i j : ℤ)
    (hin : inBoxB x1l x1h x2l x2h i j = true) :
    (pruneMask x1l x1h x2l x2h PF M i j = true ↔ PF i j ≠ 0)
    ∧ (PF i j = 0 → pruneMask x1l x1h x2l x2h PF M i j = false
        ∧ pruneF x1l x1h x2l x2h PF F i j = 0)
    ∧ (PF i j ≠ 0 → pruneMask x1l x1h x2l x2h PF M i j = true) := by
  refine ⟨?_, ?_, ?_⟩
  · constructor
    · intro h hz
      rw [pruneMask, hin] at h
      simp [hz] at h
    · intro hz
      rw [pruneMask, hin]
      simp [hz]
  · intro hz
    constructor
    · rw [pruneMask, hin]; simp [hz]
    · simp [pruneF, hin, hz]
  · intro hz
    rw [pruneMask, hin]; simp [hz]

/-- Witness for C10 at a concrete in-box cell. -/
theorem c10_mask_recompute_iff_witness :
    pruneMask 0 1 0 1 (fun _ _ => (1:ℚ)) (fun _ _ => false) 0 0 = true :=
  ((c10_mask_recompute_iff 0 1 0 1 (fun _ _ => (1:ℚ)) (fun _ _ => 0) (fun _ _ => false) 0 0
    (by decide)).2.2) (by norm_num)

/-- C8 counterexample: with `Z = -1 ≤ 0` on a one-cell region the program does
not fail; the normalization loop runs and stores `(1/Z)·FF = 1` into the
buffers — the run continues with the rescaled (meaningless) distribution. -/
theorem c8_counterexample :
    znorm pW {((0:ℤ), (0:ℤ))} (fun _ _ => -1) = -1
    ∧ renorm pW {((0:ℤ), (0:ℤ))} (fun _ _ => -1) (fun _ _ => -1) 0 0 = 1 := by
  constructor
  · norm_num [znorm, pW]
  · norm_num [renorm, znorm, pW]

/-- C8 (amended): when `Z < 0` no fatality check fires; every region cell is
still overwritten with `(1/Z)·FF`, so cells with positive `FF` become
negative and the step proceeds with a distribution that is no longer a
probability density. -/
theorem c8_norm_nonpos_continues (P : Params K) (R : Finset (ℤ × ℤ)) (FFb G : Grid2 K)
    (a b : ℤ) (hc : (a, b) ∈ R) (hZ : znorm P R FFb < 0) :
    renorm P R FFb G a b = (1 / znorm P R FFb) * FFb a b
    ∧ (0 < FFb a b → renorm P R FFb G a b < 0) := by
  constructor
  · simp [renorm, hc]
  · intro hpos
    rw [renorm, if_pos hc]
    exact mul_neg_of_neg_of_pos (by simpa using one_div_neg.mpr hZ) hpos

/-- Witness for the amended C8 on a one-cell region with `Z = -1`. -/
theorem c8_norm_nonpos_continues_witness :
    renorm pW {((0:ℤ), (0:ℤ))} (fun _ _ => -1) (fun _ _ => -1) 0 0
      = (1 / znorm pW {((0:ℤ), (0:ℤ))} (fun _ _ => -1)) * (fun _ _ => (-1:ℚ)) 0 0 :=
  (c8_norm_nonpos_continues pW {((0:ℤ), (0:ℤ))} (fun _ _ => -1) (fun _ _ => -1) 0 0
    (by decide) (by norm_num [znorm, pW])).1

end KK2d

namespace KK2d

variable {K : Type*} [LinearOrderedField K]

omit [LinearOrderedField K] in
/-- Helper introduction rule for the frontier interior predicate. -/
theorem interiorP_mk (P : Params K) (a b : ℤ) (h1 : P.EDGE < a) (h2 : P.EDGE < b)
    (h3 : a < P.Nx - P.EDGE - 1) (h4 : b < P.Np - P.EDGE - 1) : interiorP P (a, b) :=
  ⟨h1, h2, h3, h4⟩

/-- C7: every cell of the pre-RK4 frontier `tblBuild` is interior by its
filter; and when every current TBL cell is interior, every extrapolation
target of `exffBuild` is interior (x-moves are bounded by their own guard and
inherit the p-bounds, p-moves vice versa), hence so is every cell of the
rebuilt frontier, despite the `g2 > EDGE && g2 > EDGE` test of the rebuild. -/
theorem c7_tbl_interior (P : Params K) (M : Mask) (F PF FFb : Grid2 K)
    (TolL TolLdSq TolH TolHdSq : K) (chk : ℤ × ℤ → Bool)
    (TB TBL : List (ℤ × ℤ)) (hTBL : ∀ c ∈ TBL, interiorP P c) :
    (∀ c ∈ tblBuild P M F PF TolL TolLdSq TB, interiorP P c)
    ∧ (∀ c ∈ exffBuild P F TBL, interiorP P c)
    ∧ (∀ c ∈ tblRebuild P M FFb TolH TolHdSq chk (exffBuild P F TBL), interiorP P c) := by
  have hexff : ∀ c ∈ exffBuild P F TBL, interiorP P c := by
    intro c hc
    simp only [exffBuild, List.mem_flatMap] at hc
    obtain ⟨d, hd, hmem⟩ := hc
    obtain ⟨e1, e2, e3, e4⟩ := hTBL d hd
    rcases List.mem_append.mp hmem with hmem' | hmem'
    · rcases List.mem_append.mp hmem' with hmem'' | hmem''
      · rcases List.mem_append.mp hmem'' with hone | hone
        · split at hone
          · rename_i hcond
            rw [List.mem_singleton.mp hone]
            exact interiorP_mk P _ _ (by omega) (by omega) (by omega) (by omega)
          · simp at hone
        · split at hone
          · rename_i hcond
            rw [List.mem_singleton.mp hone]
            exact interiorP_mk P _ _ (by omega) (by omega) (by omega) (by omega)
          · simp at hone
      · split at hmem''
        · rename_i hcond
          rw [List.mem_singleton.mp hmem'']
          exact interiorP_mk P _ _ (by omega) (by omega) (by omega) (by omega)
        · simp at hmem''
    · split at hmem'
      · rename_i hcond
        rw [List.mem_singleton.mp hmem']
        exact interiorP_mk P _ _ (by omega) (by omega) (by omega) (by omega)
      · simp at hmem'
  refine ⟨?_, hexff, ?_⟩
  · intro c hc
    simp only [tblBuild, List.mem_filter, decide_eq_true_eq] at hc
    exact hc.2.2
  · intro c hc
    simp only [tblRebuild, List.mem_filter] at hc
    exact hexff c hc.1

/-- Witness for C7: the concrete target `(4,3)` generated from the frontier
cell `(3,3)` is interior. -/
theorem c7_tbl_interior_witness : interiorP pW ((4:ℤ), (3:ℤ)) :=
  (c7_tbl_interior pW (fun _ _ => false) (fun _ _ => 0) (fun _ _ => 0) (fun _ _ => 0)
    0 0 0 0 (fun _ => false) [] [((3:ℤ), (3:ℤ))] (by decide)).2.1
    ((4:ℤ), (3:ℤ)) (by decide)

/-- Helper: the loop body is the identity on exit states. -/
theorem exBody_exit {E : Type*} (Pr : ExProg E) (ExLimit : ℕ) (s : ExState E)
    (h : exExit ExLimit s) : exBody Pr ExLimit s = s := by
  rw [exBody, if_pos h]

/-- Helper: every guarded pass strictly decreases the loop measure. -/
theorem exBody_measure_lt {E : Type*} (Pr : ExProg E) (ExLimit : ℕ) (s : ExState E)
    (h : ¬ exExit ExLimit s) :
    exMeasure ExLimit (exBody Pr ExLimit s) < exMeasure ExLimit s := by
  rw [exExit, not_or, not_le] at h
  obtain ⟨htbl, hcnt⟩ := h
  rw [exBody, if_neg (by rw [not_or, not_le]; exact ⟨htbl, hcnt⟩)]
  by_cases hf : s.first <;> by_cases hex : Pr.exffOf s.env s.tbl = [] <;>
      simp only [hf, hex, if_true, if_false, ite_true, ite_false, exMeasure] <;>
      simp [htbl, hf] <;> (try split_ifs) <;> omega

/-- Helper: from any state whose measure is at most `n`, `n` passes reach an
exit state. -/
theorem exBody_iterate_exit {E : Type*} (Pr : ExProg E) (ExLimit : ℕ) :
    ∀ (n : ℕ) (s : ExState E), exMeasure ExLimit s ≤ n →
      exExit ExLimit ((exBody Pr ExLimit)^[n] s) := by
  intro n
  induction n with
  | zero =>
    intro s hs
    rw [Function.iterate_zero_apply]
    by_contra h
    rw [exExit, not_or] at h
    have : exMeasure ExLimit s ≠ 0 := by
      simp only [exMeasure]
      simp [h.1]
    omega
  | succ n ih =>
    intro s hs
    by_cases h : exExit ExLimit s
    · have hfix : (exBody Pr ExLimit)^[n + 1] s = s :=
        Function.iterate_fixed (exBody_exit Pr ExLimit s h) (n + 1)
      rw [hfix]
      exact h
    · have hlt := exBody_measure_lt Pr ExLimit s h
      rw [Function.iterate_succ_apply]
      exact ih (exBody Pr ExLimit s) (by omega)

/-- C6: the per-step extrapolation loop terminates — from a fresh state
(`Excount = 0`) at most `2·ExLimit + 2` passes reach a state failing the
guard `TBL ≠ ∅ ∧ Excount < ExLimit`, which is then a fixed point; moreover a
guarded pass increments `Excount` exactly when the target set `ExFF` is
nonempty, `Excount` never exceeds `ExLimit`, and when the incremented counter
reaches `ExLimit` the pass clears `TBL`. -/
theorem c6_extrap_loop_control {E : Type*} (Pr : ExProg E) (ExLimit : ℕ) (s0 : ExState E)
    (h0 : s0.excount = 0) :
    exExit ExLimit ((exBody Pr ExLimit)^[2 * ExLimit + 2] s0)
    ∧ (∀ s : ExState E, exExit ExLimit s → exBody Pr ExLimit s = s)
    ∧ (∀ s : ExState E, ¬ exExit ExLimit s →
        ((exBody Pr ExLimit s).excount
            = if Pr.exffOf s.env s.tbl = [] then s.excount else s.excount + 1)
        ∧ (exBody Pr ExLimit s).excount ≤ ExLimit
        ∧ (Pr.exffOf s.env s.tbl ≠ [] → s.excount + 1 = ExLimit →
            (exBody Pr ExLimit s).tbl = [])) := by
  refine ⟨?_, fun s h => exBody_exit Pr ExLimit s h, ?_⟩
  · apply exBody_iterate_exit
    simp only [exMeasure, h0]
    split_ifs <;> omega
  · intro s h
    have h' := h
    rw [exExit, not_or, not_le] at h'
    obtain ⟨htbl, hcnt⟩ := h'
    rw [exBody, if_neg (by rw [not_or, not_le]; exact ⟨htbl, hcnt⟩)]
    by_cases hf : s.first <;> by_cases hex : Pr.exffOf s.env s.tbl = [] <;>
        simp [hf, hex] <;> (try split_ifs) <;> omega

/-- Witness for C6 with a concrete nonempty start state and `ExLimit = 1`. -/
theorem c6_extrap_loop_control_witness :
    exExit 1 ((exBody prW 1)^[2 * 1 + 2] sW) :=
  (c6_extrap_loop_control prW 1 sW rfl).1

end KK2d

namespace KK2d

variable {K : Type*} [LinearOrderedField K]

/-- C9: in every `Feq_loc`-building path (the truncated per-row blocks, the
`ExBD` block and — by instantiating the mask with the all-true mask and the
full ranges — the full-grid block) and in all three collision modes, the
stored value is the raw local Maxwellian passed through `sanitizeFeq`: values
above `1/(H0·H1)` become `0`, all others are stored unchanged.  Over an
ordered field `!isfinite(feq)` is identically false, so the clipping test is
the whole sanitisation. -/
theorem c9_feq_sanitized (P : Params K) (rsqrt rexp : K → K) (piv : K) (M : Mask)
    (F : Grid2 K) (jlo jhi : ℤ) (FeqOld : Grid2 K) (Dens Vel Temp : ℤ → K)
    (L : List (ℤ × ℤ)) (i j : ℤ)
    (hm : M i j = true) (hjl : jlo ≤ j) (hjh : j ≤ jhi)
    (hd : ¬ rowDensity P M F jlo jhi i ≤ 0)
    (hL : (i, j) ∈ L) (hD : 0 < Dens i) :
    case2Feq P rsqrt rexp piv M F jlo jhi CollMode.lin FeqOld i j
        = sanitizeFeq P (feqLinRaw P rsqrt rexp piv (rowDensity P M F jlo jhi i) j)
    ∧ case2Feq P rsqrt rexp piv M F jlo jhi CollMode.iso FeqOld i j
        = sanitizeFeq P (feqIsoRaw P rsqrt rexp piv (rowDensity P M F jlo jhi i)
            (rowMomRaw P M F jlo jhi i / (P.m * rowDensity P M F jlo jhi i)) j)
    ∧ case2Feq P rsqrt rexp piv M F jlo jhi CollMode.fullFP FeqOld i j
        = sanitizeFeq P (feqFullRaw P rsqrt rexp piv (rowDensity P M F jlo jhi i)
            (rowMomRaw P M F jlo jhi i / (P.m * rowDensity P M F jlo jhi i))
            (rowTempRaw P M F jlo jhi i
                (rowMomRaw P M F jlo jhi i / (P.m * rowDensity P M F jlo jhi i))
              / (P.m * P.kb * rowDensity P M F jlo jhi i)) j)
    ∧ exbdFeq P rsqrt rexp piv Dens Vel Temp L FeqOld i j
        = sanitizeFeq P (feqFullRaw P rsqrt rexp piv (Dens i) (Vel i) (Temp i) j) := by
  refine ⟨?_, ?_, ?_, ?_⟩
  · simp [case2Feq, sanitizeFeq, hm, hjl, hjh, hd]
  · simp [case2Feq, sanitizeFeq, hm, hjl, hjh, hd]
  · simp [case2Feq, sanitizeFeq, hm, hjl, hjh, hd]
  · simp [exbdFeq, sanitizeFeq, hL, hD]

/-- Witness for C9 at a concrete live cell with positive densities. -/
theorem c9_feq_sanitized_witness :
    case2Feq pW (fun x => x) (fun _ => 1) 1 (fun _ _ => true) (fun _ _ => 1) 0 0
        CollMode.lin (fun _ _ => 0) 0 0
      = sanitizeFeq pW (feqLinRaw pW (fun x => x) (fun _ => 1) 1
          (rowDensity pW (fun _ _ => true) (fun _ _ => 1) 0 0 0) 0) :=
  (c9_feq_sanitized pW (fun x => x) (fun _ => 1) 1 (fun _ _ => true) (fun _ _ => 1) 0 0
    (fun _ _ => 0) (fun _ => 1) (fun _ => 0) (fun _ => 1) [((0:ℤ), (0:ℤ))] 0 0
    rfl le_rfl le_rfl (by norm_num [rowDensity, pW]) (by decide) (by norm_num)).1

/-- Helper: one scan step leaves `sum` unchanged unless the direction yields a
finite candidate, in which case the candidate is added. -/
theorem extrapStep_sum (cexp clog : K → K) (a : ExtrapAcc K) (d : K × K × K) :
    (extrapStep cexp clog a d).sum
      = if 0 < d.1 ∧ 0 < d.2.1 then a.sum + cexp (2 * clog d.1 - clog d.2.1) else a.sum := by
  have hmu : (minUpd a d).sum = a.sum := by
    unfold minUpd; split_ifs <;> rfl
  unfold extrapStep
  split_ifs with h1 h2 h3 <;> simp_all

/-- Helper: one scan step increments `count` exactly on a finite candidate. -/
theorem extrapStep_count (cexp clog : K → K) (a : ExtrapAcc K) (d : K × K × K) :
    (extrapStep cexp clog a d).count
      = if 0 < d.1 ∧ 0 < d.2.1 then a.count + 1 else a.count := by
  have hmu : (minUpd a d).count = a.count := by
    unfold minUpd; split_ifs <;> rfl
  unfold extrapStep
  split_ifs with h1 h2 h3 <;> simp_all

/-- Helper: one scan step clears `isEmpty` exactly on a finite candidate. -/
theorem extrapStep_isEmpty (cexp clog : K → K) (a : ExtrapAcc K) (d : K × K × K) :
    (extrapStep cexp clog a d).isEmpty
      = if 0 < d.1 ∧ 0 < d.2.1 then false else a.isEmpty := by
  have hmu : (minUpd a d).isEmpty = a.isEmpty := by
    unfold minUpd; split_ifs <;> rfl
  unfold extrapStep
  split_ifs with h1 h2 h3 <;> simp_all

/-- Helper: one scan step updates the tracked minimum exactly when the
direction is formed and strictly improves it. -/
theorem extrapStep_minfields (cexp clog : K → K) (a : ExtrapAcc K) (d : K × K × K) :
    ((extrapStep cexp clog a d).vminAbs, (extrapStep cexp clog a d).vmin,
        (extrapStep cexp clog a d).hmin)
      = if d.1 ≠ 0 ∧ |d.1| < a.vminAbs ∧ d.2.1 ≠ 0 then (|d.1|, d.1, d.2.2)
        else (a.vminAbs, a.vmin, a.hmin) := by
  unfold extrapStep minUpd
  split_ifs with h1 h2 h3 h4 h5 h6 h7 <;> simp_all

end KK2d

namespace KK2d

variable {K : Type*} [LinearOrderedField K]

/-- Helper: cons step of `validDirs` for a contributing direction. -/
theorem validDirs_cons_pos (d : K × K × K) (L : List (K × K × K))
    (hv : 0 < d.1 ∧ 0 < d.2.1) : validDirs (d :: L) = d :: validDirs L := by
  simp [validDirs, List.filter_cons, hv]

/-- Helper: cons step of `validDirs` for a non-contributing direction. -/
theorem validDirs_cons_neg (d : K × K × K) (L : List (K × K × K))
    (hv : ¬ (0 < d.1 ∧ 0 < d.2.1)) : validDirs (d :: L) = validDirs L := by
  simp [validDirs, List.filter_cons, hv]

/-- Helper: cons step of `formedDirs` for a formed direction. -/
theorem formedDirs_cons_pos (d : K × K × K) (L : List (K × K × K))
    (hv : d.1 ≠ 0 ∧ d.2.1 ≠ 0) : formedDirs (d :: L) = d :: formedDirs L := by
  simp [formedDirs, List.filter_cons, hv]

/-- Helper: cons step of `formedDirs` for an unformed direction. -/
theorem formedDirs_cons_neg (d : K × K × K) (L : List (K × K × K))
    (hv : ¬ (d.1 ≠ 0 ∧ d.2.1 ≠ 0)) : formedDirs (d :: L) = formedDirs L := by
  simp only [formedDirs, List.filter_cons]
  simp [hv]

/-- Helper: every contributing direction is formed. -/
theorem validDirs_subset_formed (L : List (K × K × K)) :
    ∀ d ∈ validDirs L, d ∈ formedDirs L := by
  intro d hd
  simp only [validDirs, List.mem_filter, decide_eq_true_eq] at hd
  simp only [formedDirs, List.mem_filter, decide_eq_true_eq]
  exact ⟨hd.1, ne_of_gt hd.2.1, ne_of_gt hd.2.2⟩

/-- Helper: cons step of the candidate total for a contributing direction. -/
theorem candTotal_cons_pos (cexp clog : K → K) (d : K × K × K) (L : List (K × K × K))
    (hv : 0 < d.1 ∧ 0 < d.2.1) :
    candTotal cexp clog (d :: L)
      = cexp (2 * clog d.1 - clog d.2.1) + candTotal cexp clog L := by
  rw [candTotal, validDirs_cons_pos d L hv, candTotal]
  simp

/-- Helper: cons step of the candidate total for a non-contributing
direction. -/
theorem candTotal_cons_neg (cexp clog : K → K) (d : K × K × K) (L : List (K × K × K))
    (hv : ¬ (0 < d.1 ∧ 0 < d.2.1)) :
    candTotal cexp clog (d :: L) = candTotal cexp clog L := by
  rw [candTotal, validDirs_cons_neg d L hv, candTotal]

/-- Helper: the direction scan accumulates exactly the candidate total, the
candidate count, and the emptiness flag of the contributing directions. -/
theorem extrapFold_counts (cexp clog : K → K) :
    ∀ (L : List (K × K × K)) (a : ExtrapAcc K),
      (L.foldl (extrapStep cexp clog) a).sum = a.sum + candTotal cexp clog L
      ∧ (L.foldl (extrapStep cexp clog) a).count = a.count + (validDirs L).length
      ∧ (L.foldl (extrapStep cexp clog) a).isEmpty
          = (a.isEmpty && (validDirs L).isEmpty) := by
  intro L
  induction L with
  | nil =>
    intro a
    simp [candTotal, validDirs]
  | cons d L ih =>
    intro a
    obtain ⟨hs, hc, he⟩ := ih (extrapStep cexp clog a d)
    rw [List.foldl_cons]
    by_cases hv : 0 < d.1 ∧ 0 < d.2.1
    · refine ⟨?_, ?_, ?_⟩
      · rw [hs, extrapStep_sum, if_pos hv, candTotal_cons_pos cexp clog d L hv]
        ring
      · rw [hc, extrapStep_count, if_pos hv, validDirs_cons_pos d L hv]
        simp only [List.length_cons]
        omega
      · rw [he, extrapStep_isEmpty, if_pos hv, validDirs_cons_pos d L hv]
        simp
    · refine ⟨?_, ?_, ?_⟩
      · rw [hs, extrapStep_sum, if_neg hv, candTotal_cons_neg cexp clog d L hv]
      · rw [hc, extrapStep_count, if_neg hv, validDirs_cons_neg d L hv]
      · rw [he, extrapStep_isEmpty, if_neg hv, validDirs_cons_neg d L hv]

/-- Helper: the tracked minimum never increases along the scan. -/
theorem extrapFold_vminAbs_le (cexp clog : K → K) :
    ∀ (L : List (K × K × K)) (a : ExtrapAcc K),
      (L.foldl (extrapStep cexp clog) a).vminAbs ≤ a.vminAbs := by
  intro L
  induction L with
  | nil => intro a; simp
  | cons d L ih =>
    intro a
    rw [List.foldl_cons]
    refine le_trans (ih (extrapStep cexp clog a d)) ?_
    have h := extrapStep_minfields cexp clog a d
    split_ifs at h with hcond
    · have h1 := congrArg Prod.fst h
      simp only at h1
      rw [h1]
      exact le_of_lt hcond.2.1
    · have h1 := congrArg Prod.fst h
      simp only at h1
      rw [h1]

/-- Helper: the tracked minimum is a lower bound of the formed directions. -/
theorem extrapFold_vminAbs_le_formed (cexp clog : K → K) :
    ∀ (L : List (K × K × K)) (a : ExtrapAcc K), ∀ d ∈ formedDirs L,
      (L.foldl (extrapStep cexp clog) a).vminAbs ≤ |d.1| := by
  intro L
  induction L with
  | nil =>
    intro a d hd
    simp [formedDirs] at hd
  | cons e L ih =>
    intro a d hd
    rw [List.foldl_cons]
    by_cases hf : e.1 ≠ 0 ∧ e.2.1 ≠ 0
    · rw [formedDirs_cons_pos e L hf] at hd
      rcases List.mem_cons.mp hd with rfl | hd'
      · refine le_trans (extrapFold_vminAbs_le cexp clog L _) ?_
        have h := extrapStep_minfields cexp clog a d
        split_ifs at h with hcond
        · have h1 := congrArg Prod.fst h
          simp only at h1
          rw [h1]
        · have h1 := congrArg Prod.fst h
          simp only at h1
          rw [h1]
          by_contra hlt
          push_neg at hlt
          exact hcond ⟨hf.1, hlt, hf.2⟩
      · exact ih _ d hd'
    · rw [formedDirs_cons_neg e L hf] at hd
      exact ih _ d hd

/-- Helper: the tracked minimum is either the initial one or is achieved by a
formed direction, together with its value and grid step. -/
theorem extrapFold_min_mem (cexp clog : K → K) :
    ∀ (L : List (K × K × K)) (a : ExtrapAcc K),
      ((L.foldl (extrapStep cexp clog) a).vminAbs = a.vminAbs
        ∧ (L.foldl (extrapStep cexp clog) a).vmin = a.vmin
        ∧ (L.foldl (extrapStep cexp clog) a).hmin = a.hmin)
      ∨ ∃ d ∈ formedDirs L,
          (L.foldl (extrapStep cexp clog) a).vminAbs = |d.1|
          ∧ (L.foldl (extrapStep cexp clog) a).vmin = d.1
          ∧ (L.foldl (extrapStep cexp clog) a).hmin = d.2.2 := by
  intro L
  induction L with
  | nil =>
    intro a
    left
    simp
  | cons e L ih =>
    intro a
    rw [List.foldl_cons]
    have h := extrapStep_minfields cexp clog a e
    split_ifs at h with hcond
    · have h1 := congrArg Prod.fst h
      have h2 := congrArg (fun p : K × K × K => p.2.1) h
      have h3 := congrArg (fun p : K × K × K => p.2.2) h
      simp only at h1 h2 h3
      have hform : e.1 ≠ 0 ∧ e.2.1 ≠ 0 := ⟨hcond.1, hcond.2.2⟩
      rcases ih (extrapStep cexp clog a e) with ⟨g1, g2, g3⟩ | ⟨d, hd, g1, g2, g3⟩
      · right
        refine ⟨e, ?_, ?_, ?_, ?_⟩
        · rw [formedDirs_cons_pos e L hform]
          exact List.mem_cons_self e (formedDirs L)
        · rw [g1, h1]
        · rw [g2, h2]
        · rw [g3, h3]
      · right
        refine ⟨d, ?_, g1, g2, g3⟩
        rw [formedDirs_cons_pos e L hform]
        exact List.mem_cons_of_mem e hd
    · have h1 := congrArg Prod.fst h
      have h2 := congrArg (fun p : K × K × K => p.2.1) h
      have h3 := congrArg (fun p : K × K × K => p.2.2) h
      simp only at h1 h2 h3
      rcases ih (extrapStep cexp clog a e) with ⟨g1, g2, g3⟩ | ⟨d, hd, g1, g2, g3⟩
      · left
        exact ⟨by rw [g1, h1], by rw [g2, h2], by rw [g3, h3]⟩
      · right
        refine ⟨d, ?_, g1, g2, g3⟩
        by_cases hf : e.1 ≠ 0 ∧ e.2.1 ≠ 0
        · rw [formedDirs_cons_pos e L hf]
          exact List.mem_cons_of_mem e hd
        · rw [formedDirs_cons_neg e L hf]
          exact hd

end KK2d

namespace KK2d

/-- C5: characterisation of the committed extrapolation value of a target
`(g1,g2)`.  A target is left unassigned exactly when no direction contributes
a finite candidate; contributed candidates are `exp(2 ln f1 - ln f2) = f1²/f2`;
when candidates exist, the tracked minimum is achieved by a formed direction
and bounds all formed directions from below, and the committed value is the
candidate average unless its absolute value exceeds the tracked minimum, in
which case it is `val_min · exp(-ExReduce · h_d)` with `h_d` the grid step of
the minimising direction.  The hypothesis bounds the formed values by the
`BIG_NUMBER` initialiser of the minimum tracker. -/
theorem c5_geometric_extrapolation (P : Params ℝ) (F : Grid2 ℝ) (g1 g2 : ℤ)
    (hb : ∀ d ∈ formedDirs (dirData P F g1 g2), |d.1| < bigNum ℝ) :
    (extrapValue Real.exp Real.log P F g1 g2 = none
        ↔ validDirs (dirData P F g1 g2) = [])
    ∧ (∀ d ∈ validDirs (dirData P F g1 g2),
        Real.exp (2 * Real.log d.1 - Real.log d.2.1) = d.1 ^ 2 / d.2.1)
    ∧ (validDirs (dirData P F g1 g2) ≠ [] →
        (∃ d ∈ formedDirs (dirData P F g1 g2),
            (extrapAcc Real.exp Real.log P F g1 g2).vminAbs = |d.1|
            ∧ (extrapAcc Real.exp Real.log P F g1 g2).vmin = d.1
            ∧ (extrapAcc Real.exp Real.log P F g1 g2).hmin = d.2.2)
        ∧ (∀ d ∈ formedDirs (dirData P F g1 g2),
            (extrapAcc Real.exp Real.log P F g1 g2).vminAbs ≤ |d.1|)
        ∧ (¬ (extrapAcc Real.exp Real.log P F g1 g2).vminAbs
              < |candAverage Real.exp Real.log (dirData P F g1 g2)| →
            extrapValue Real.exp Real.log P F g1 g2
              = some (candAverage Real.exp Real.log (dirData P F g1 g2)))
        ∧ ((extrapAcc Real.exp Real.log P F g1 g2).vminAbs
              < |candAverage Real.exp Real.log (dirData P F g1 g2)| →
            extrapValue Real.exp Real.log P F g1 g2
              = some ((extrapAcc Real.exp Real.log P F g1 g2).vmin
                  * Real.exp (-P.ExReduce * (extrapAcc Real.exp Real.log P F g1 g2).hmin)))) := by
  have hAccDef : extrapAcc Real.exp Real.log P F g1 g2
      = (dirData P F g1 g2).foldl (extrapStep Real.exp Real.log) extrapInit := rfl
  obtain ⟨hsum, hcount, hempty⟩ :=
    extrapFold_counts Real.exp Real.log (dirData P F g1 g2) extrapInit
  rw [← hAccDef] at hsum hcount hempty
  have hsum' : (extrapAcc Real.exp Real.log P F g1 g2).sum
      = candTotal Real.exp Real.log (dirData P F g1 g2) := by
    rw [hsum]; simp [extrapInit]
  have hcount' : (extrapAcc Real.exp Real.log P F g1 g2).count
      = (validDirs (dirData P F g1 g2)).length := by
    rw [hcount]; simp [extrapInit]
  have hempty' : (extrapAcc Real.exp Real.log P F g1 g2).isEmpty
      = (validDirs (dirData P F g1 g2)).isEmpty := by
    rw [hempty]; simp [extrapInit]
  have hexp : ∀ d ∈ validDirs (dirData P F g1 g2),
      Real.exp (2 * Real.log d.1 - Real.log d.2.1) = d.1 ^ 2 / d.2.1 := by
    intro d hd
    simp only [validDirs, List.mem_filter, decide_eq_true_eq] at hd
    rw [Real.exp_sub, Real.exp_log hd.2.2, two_mul, Real.exp_add, Real.exp_log hd.2.1, ← sq]
  refine ⟨?_, hexp, ?_⟩
  · constructor
    · intro h
      by_contra hne
      have hie : (extrapValue Real.exp Real.log P F g1 g2).isSome = true := by
        rw [extrapValue]
        have : (extrapAcc Real.exp Real.log P F g1 g2).isEmpty = false := by
          rw [hempty']
          cases hl : validDirs (dirData P F g1 g2) with
          | nil => exact absurd hl hne
          | cons x xs => simp
        rw [this]
        simp only [Bool.false_eq_true, if_false]
        split_ifs <;> simp
      rw [h] at hie
      simp at hie
    · intro h
      rw [extrapValue]
      have : (extrapAcc Real.exp Real.log P F g1 g2).isEmpty = true := by
        rw [hempty', h]
        simp
      rw [this]
      simp
  · intro hne
    have hminle : ∀ d ∈ formedDirs (dirData P F g1 g2),
        (extrapAcc Real.exp Real.log P F g1 g2).vminAbs ≤ |d.1| := by
      intro d hd
      rw [hAccDef]
      exact extrapFold_vminAbs_le_formed Real.exp Real.log (dirData P F g1 g2) extrapInit d hd
    have hmem : ∃ d ∈ formedDirs (dirData P F g1 g2),
        (extrapAcc Real.exp Real.log P F g1 g2).vminAbs = |d.1|
        ∧ (extrapAcc Real.exp Real.log P F g1 g2).vmin = d.1
        ∧ (extrapAcc Real.exp Real.log P F g1 g2).hmin = d.2.2 := by
      rcases extrapFold_min_mem Real.exp Real.log (dirData P F g1 g2) extrapInit with
        ⟨q1, q2, q3⟩ | hx
      · exfalso
        obtain ⟨d0, hd0⟩ := List.exists_mem_of_ne_nil _ hne
        have hf0 := validDirs_subset_formed (dirData P F g1 g2) d0 hd0
        have hlt := hb d0 hf0
        have hle := hminle d0 hf0
        rw [hAccDef, q1] at hle
        simp only [extrapInit] at hle
        exact absurd hlt (not_lt.mpr hle)
      · rw [← hAccDef] at hx
        exact hx
    have hie : (extrapAcc Real.exp Real.log P F g1 g2).isEmpty = false := by
      rw [hempty']
      cases hl : validDirs (dirData P F g1 g2) with
      | nil => exact absurd hl hne
      | cons x xs => simp
    have havg : candAverage Real.exp Real.log (dirData P F g1 g2)
        = (extrapAcc Real.exp Real.log P F g1 g2).sum
            / ((extrapAcc Real.exp Real.log P F g1 g2).count : ℝ) := by
      rw [candAverage, hsum', hcount']
    refine ⟨hmem, hminle, ?_, ?_⟩
    · intro hno
      rw [havg] at hno
      rw [extrapValue, hie]
      simp only [Bool.false_eq_true, if_false]
      rw [if_neg hno, havg]
    · intro hyes
      rw [havg] at hyes
      rw [extrapValue, hie]
      simp only [Bool.false_eq_true, if_false]
      rw [if_pos hyes]

/-- Witness for C5 on the constant-one field, whose four directions all
contribute the candidate `1`. -/
theorem c5_geometric_extrapolation_witness :
    extrapValue Real.exp Real.log pR (fun _ _ => 1) 0 0 = none
      ↔ validDirs (dirData pR (fun _ _ => 1) 0 0) = [] :=
  (c5_geometric_extrapolation pR (fun _ _ => 1) 0 0 (by
    intro d hd
    simp only [dirData, formedDirs, List.mem_filter, decide_eq_true_eq] at hd
    rcases hd with ⟨hmem, -⟩
    simp only [List.mem_cons, List.not_mem_nil, or_false] at hmem
    rcases hmem with rfl | rfl | rfl | rfl <;> norm_num [bigNum])).1

end KK2d
